import Mathlib

/-!
Verification of the `aiscrape` scraper.

The program text is modelled shallowly:

* Python strings are `List Char`; `str.find(sub, start)` is `strFind`,
  which returns the least index `i` with `start ≤ i ≤ len` at which `sub`
  occurs (Python returns `-1`, modelled as `none`, when there is no such
  index or when `start > len`).
* `extract_content` is a direct transcription of the slicing function
  (`text[a:c]` becomes `(text.take c).drop a`).
* `AIScrape.scrape` performs I/O through two collaborators (the HTTP
  fetcher `get_url_text` and the model oracle `_begin_end`); these are
  passed as fallible functions, and `scrape` additionally records the
  sequence of collaborator invocations as a list of events.  The
  `while content is None and retries >= 0` loop decrements `retries` and
  stops once it is negative, so `(retries + 1).toNat` is exactly the
  number of iterations still permitted by the counter; `retryLoopN`
  recurses structurally on that budget.
* `main` is modelled by its return value together with the lines it
  prints; the script's top level calls `main()` without `sys.exit`, so
  the interpreter's process exit code is 0 no matter what `main`
  returns — `scriptExitCode` records that fact.
-/

/-- Model of CPython `str.find`'s scanning loop: try indices `i`,
`i + 1`, … for as long as fuel remains, returning the first index at
which `sub` occurs in `t`. -/
def strFindGo (t sub : List Char) : Nat → Nat → Option Nat
  | _, 0 => none
  | i, fuel + 1 =>
    if sub.isPrefixOf (t.drop i) then some i else strFindGo t sub (i + 1) fuel

/-- Model of Python `t.find(sub, start)` (with `find(sub)` being
`start = 0`): the least `i` with `start ≤ i ≤ t.length` such that `sub`
occurs in `t` at `i`, and `none` (Python `-1`) when there is none.  For
`start > len(t)` CPython returns `-1` even for the empty pattern. -/
def strFind (t sub : List Char) (start : Nat) : Option Nat :=
  if start ≤ t.length then strFindGo t sub start (t.length + 1 - start) else none

/-- Transcription of `extract_content(text, begin, end)` from
`src/aiscrape.py` (`begin`/`end` are renamed `begin_`/`end_` since `end`
is reserved in Lean):

    start_index = text.find(begin)
    if start_index == -1:
        return None
    start_index += len(begin)
    end_index = text.find(end, start_index)
    if end_index == -1:
        return text[start_index - len(begin):]
    return text[start_index - len(begin) : end_index + len(end)]
-/
def extract_content (text begin_ end_ : List Char) : Option (List Char) :=
  match strFind text begin_ 0 with
  | none => none
  | some i =>
    let start_index := i + begin_.length
    match strFind text end_ start_index with
    | none => some (text.drop (start_index - begin_.length))
    | some end_index =>
      some ((text.take (end_index + end_.length)).drop (start_index - begin_.length))

/-- Collaborator invocations observable during one `scrape` call. -/
inductive Ev : Type where
  | fetch (url : List Char)
  | oracle (text : List Char)
  | extract (text begin_ end_ : List Char)
deriving DecidableEq

/-- The loop `while content is None and retries >= 0:` from
`AIScrape.scrape`, with the iteration budget `(retries + 1).toNat` made
explicit as fuel (the loop exits as soon as the decremented counter is
negative, i.e. after at most that many iterations).  Returns the final
`content` together with the extraction attempts performed. -/
def retryLoopN (text begin_ end_ : List Char) :
    Option (List Char) → Nat → Option (List Char) × List Ev
  | content, 0 => (content, [])
  | content, fuel + 1 =>
    if content = none then
      let c := extract_content text begin_ end_
      let rest := retryLoopN text begin_ end_ c fuel
      (rest.1, Ev.extract text begin_ end_ :: rest.2)
    else (content, [])

/-- Transcription of `AIScrape.scrape(url, retries=3)`.  The fetcher
(`get_url_text`) and the oracle (`self._begin_end`) are fallible
collaborators; an exception raised by either propagates out of `scrape`
(modelled by `Except.error`).  On the happy path:

    text = get_url_text(url)
    begin, end = self._begin_end(text)
    content = None
    retries = min(0, retries)
    while content is None and retries >= 0:
        content = extract_content(text, begin, end)
        retries -= 1
    return content
-/
def scrape {ε : Type} (fetch : List Char → Except ε (List Char))
    (oracle : List Char → Except ε (List Char × List Char))
    (url : List Char) (retries : Int) :
    Except ε (Option (List Char)) × List Ev :=
  match fetch url with
  | .error err => (.error err, [Ev.fetch url])
  | .ok text =>
    match oracle text with
    | .error err => (.error err, [Ev.fetch url, Ev.oracle text])
    | .ok (begin_, end_) =>
      let r := retryLoopN text begin_ end_ none ((min 0 retries) + 1).toNat
      (.ok r.1, Ev.fetch url :: Ev.oracle text :: r.2)

/-- Recognises extraction-attempt events. -/
def isExtractEv : Ev → Bool
  | .extract _ _ _ => true
  | _ => false

/-- Number of extraction attempts recorded in an event trace. -/
def countExtract (evs : List Ev) : Nat := evs.countP isExtractEv

/-- The usage line `f"Usage: {sys.argv[0]} [url]"`. -/
def usageMsg (prog : List Char) : List Char :=
  ("Usage: ").data ++ prog ++ (" [url]").data

/-- The failure line `f"Failed to extract content url: {url}"`. -/
def failMsg (url : List Char) : List Char :=
  ("Failed to extract content url: ").data ++ url

/-- Transcription of `main()`: reads `sys.argv[1]` (usage message and
return value 1 when absent), runs `scrape`, prints the failure message
and returns 2 on absence, otherwise prints the content and returns
`None`.  Result: (Python return value, printed lines). -/
def mainFn (argv : List (List Char)) (scrapeFn : List Char → Option (List Char)) :
    Option Nat × List (List Char) :=
  match argv.get? 1 with
  | none => (some 1, [usageMsg (argv.headD [])])
  | some url =>
    match scrapeFn url with
    | none => (some 2, [failMsg url])
    | some content => (none, [content])

/-- The script's top level is `if __name__ == "__main__": main()`: the
return value of `main` is discarded and `sys.exit` is never called, so
the interpreter finishes the script normally and the process exit code
is 0 in every case. -/
def scriptExitCode (argv : List (List Char))
    (scrapeFn : List Char → Option (List Char)) : Nat :=
  let _ := mainFn argv scrapeFn
  0

/-- Demonstration page text used by the concrete orchestrator runs. -/
def demoText : List Char := ("A B C").data

/-- Demonstration URL. -/
def demoUrl : List Char := ("http://example.com").data

/-- A fetcher that succeeds with `demoText`. -/
def demoFetch : List Char → Except (List Char) (List Char) :=
  fun _ => .ok demoText

/-- An oracle answering with an anchor pair whose begin anchor `"Z"` does
not occur in `demoText`. -/
def demoOracle : List Char → Except (List Char) (List Char × List Char) :=
  fun _ => .ok (("Z").data, ("Q").data)

/-- A fetcher that raises a transport error. -/
def errFetch : List Char → Except (List Char) (List Char) :=
  fun _ => .error ("connection refused").data

/-- The script name used in the command-line scenarios. -/
def progName : List Char := ("./aiscrape.py").data

/-- A scrape stand-in returning absence for every URL. -/
def noneScrape : List Char → Option (List Char) := fun _ => none

/-- A scrape stand-in returning the content `"CONTENT"` for every URL. -/
def someScrape : List Char → Option (List Char) := fun _ => some (("CONTENT").data)

/-- Boolean prefix test agrees with the `<+:` relation. -/
theorem isPrefixOfEqTrue {l₁ l₂ : List Char} :
    l₁.isPrefixOf l₂ = true ↔ l₁ <+: l₂ :=
  List.isPrefixOf_iff_prefix

/-- Soundness and minimality of the scanning loop: a hit is the first
occurrence at or after the scan origin, and lies within the fuel range. -/
theorem strFindGo_eq_some {t sub : List Char} {fuel i j : Nat}
    (h : strFindGo t sub i fuel = some j) :
    i ≤ j ∧ j < i + fuel ∧ sub <+: t.drop j ∧
      ∀ k, i ≤ k → k < j → ¬ sub <+: t.drop k := by
  induction fuel generalizing i with
  | zero => simp [strFindGo] at h
  | succ n ih =>
    by_cases hp : sub.isPrefixOf (t.drop i)
    · rw [strFindGo, if_pos hp] at h
      obtain rfl : i = j := Option.some.inj h
      exact ⟨Nat.le_refl i, by omega, isPrefixOfEqTrue.mp hp,
        fun k hk hk' _ => by omega⟩
    · rw [strFindGo, if_neg hp] at h
      obtain ⟨h1, h2, h3, h4⟩ := ih h
      refine ⟨by omega, by omega, h3, fun k hk hk' => ?_⟩
      rcases Nat.eq_or_lt_of_le hk with rfl | hlt
      · exact fun hc => hp (isPrefixOfEqTrue.mpr hc)
      · exact h4 k hlt hk'

/-- A miss of the scanning loop means no occurrence in the scanned range. -/
theorem strFindGo_eq_none {t sub : List Char} {fuel i : Nat}
    (h : strFindGo t sub i fuel = none) :
    ∀ k, i ≤ k → k < i + fuel → ¬ sub <+: t.drop k := by
  induction fuel generalizing i with
  | zero => intro k hk hk' _; omega
  | succ n ih =>
    by_cases hp : sub.isPrefixOf (t.drop i)
    · rw [strFindGo, if_pos hp] at h
      exact absurd h (by simp)
    · rw [strFindGo, if_neg hp] at h
      intro k hk hk'
      rcases Nat.eq_or_lt_of_le hk with rfl | hlt
      · exact fun hc => hp (isPrefixOfEqTrue.mpr hc)
      · exact ih h k hlt (by omega)

/-- `strFind` soundness: the returned index is an occurrence, lies in
`[start, length]`, and is the least occurrence at or after `start`. -/
theorem strFind_eq_some {t sub : List Char} {start j : Nat}
    (h : strFind t sub start = some j) :
    start ≤ j ∧ j ≤ t.length ∧ sub <+: t.drop j ∧
      ∀ k, start ≤ k → k < j → ¬ sub <+: t.drop k := by
  unfold strFind at h
  by_cases hs : start ≤ t.length
  · rw [if_pos hs] at h
    obtain ⟨h1, h2, h3, h4⟩ := strFindGo_eq_some h
    exact ⟨h1, by omega, h3, h4⟩
  · rw [if_neg hs] at h
    exact absurd h (by simp)

/-- `strFind` completeness: a miss means there is no occurrence at any
position from `start` to the end of the text. -/
theorem strFind_eq_none {t sub : List Char} {start : Nat}
    (h : strFind t sub start = none) :
    ∀ k, start ≤ k → k ≤ t.length → ¬ sub <+: t.drop k := by
  unfold strFind at h
  by_cases hs : start ≤ t.length
  · rw [if_pos hs] at h
    intro k hk hk'
    exact strFindGo_eq_none h k hk (by omega)
  · intro k hk hk' _
    omega

/-- Occurring as an infix is the same as occurring at some drop position. -/
theorem infix_iff_exists_drop {sub t : List Char} :
    sub <:+: t ↔ ∃ j, j ≤ t.length ∧ sub <+: t.drop j := by
  constructor
  · rintro ⟨s, u, rfl⟩
    refine ⟨s.length, by simp, ?_⟩
    rw [List.append_assoc, List.drop_left]
    exact ⟨u, rfl⟩
  · rintro ⟨j, hj, r, hr⟩
    exact ⟨t.take j, r, by rw [List.append_assoc, hr, List.take_append_drop]⟩

/-- Length of the slice `text[s:m]` when `m` is inside the text. -/
theorem slice_length {t : List Char} {s m : Nat} (hm : m ≤ t.length) :
    ((t.take m).drop s).length = m - s := by
  rw [List.length_drop, List.length_take, min_eq_left hm]

/-- The slice from an occurrence of `sub` to the end of that occurrence
is `sub` itself. -/
theorem slice_is_anchor {t sub : List Char} {j : Nat} (h : sub <+: t.drop j) :
    (t.take (j + sub.length)).drop j = sub := by
  obtain ⟨r, hr⟩ := h
  rw [List.drop_take, Nat.add_sub_cancel_left, ← hr, List.take_left]

/-- A slice that reaches past the end of a `b`-occurrence starts with `b`. -/
theorem anchor_prefix_slice {t b : List Char} {s m : Nat}
    (hb : b <+: t.drop s) (hm : s + b.length ≤ m) :
    b <+: (t.take m).drop s := by
  obtain ⟨r, hr⟩ := hb
  rw [List.drop_take, ← hr, List.take_append_eq_append_take,
    List.take_of_length_le (by omega)]
  exact List.prefix_append _ _

/-- Truncating right after an occurrence of `e` leaves `e` as a suffix. -/
theorem anchor_suffix_slice {u e : List Char} {m : Nat}
    (he : e <+: u.drop m) :
    e <:+ u.take (m + e.length) := by
  obtain ⟨r, hr⟩ := he
  rw [List.take_add, ← hr, List.take_left]
  exact List.suffix_append _ _

/-- Evaluation of `extract_content` when both anchors are found. -/
theorem extract_content_eq_of_found {t b e : List Char} {s ei : Nat}
    (hb : strFind t b 0 = some s) (he : strFind t e (s + b.length) = some ei) :
    extract_content t b e = some ((t.take (ei + e.length)).drop s) := by
  unfold extract_content
  simp only [hb, he, Nat.add_sub_cancel]

/-- Evaluation of `extract_content` when the end anchor is not found
after the begin match. -/
theorem extract_content_eq_of_unfound {t b e : List Char} {s : Nat}
    (hb : strFind t b 0 = some s) (he : strFind t e (s + b.length) = none) :
    extract_content t b e = some (t.drop s) := by
  unfold extract_content
  simp only [hb, he, Nat.add_sub_cancel]

/-- Evaluation of `extract_content` when the begin anchor is not found. -/
theorem extract_content_eq_of_nobegin {t b e : List Char}
    (hb : strFind t b 0 = none) : extract_content t b e = none := by
  unfold extract_content
  simp only [hb]

/-- C1: when the begin anchor occurs in `t` (first match starting at `s`)
and the end anchor occurs at or after the position immediately following
that match (first such occurrence at `ei`), `extract_content` returns the
slice of `t` from the start of the begin match through the end of the end
match; the result starts with the begin anchor, ends with the end anchor,
and its length is the end match's end minus the begin match's start. -/
theorem extract_content_both_found (t b e : List Char) (s ei : Nat)
    (hb : strFind t b 0 = some s)
    (he : strFind t e (s + b.length) = some ei) :
    extract_content t b e = some ((t.take (ei + e.length)).drop s) ∧
    b <+: (t.take (ei + e.length)).drop s ∧
    e <:+ (t.take (ei + e.length)).drop s ∧
    ((t.take (ei + e.length)).drop s).length = ei + e.length - s := by
  obtain ⟨_, hsle, hbp, _⟩ := strFind_eq_some hb
  obtain ⟨heis, heile, hep, _⟩ := strFind_eq_some he
  have hblen : s + b.length ≤ t.length := by
    have := hbp.length_le
    rw [List.length_drop] at this
    omega
  have helen : ei + e.length ≤ t.length := by
    have := hep.length_le
    rw [List.length_drop] at this
    omega
  refine ⟨extract_content_eq_of_found hb he,
    anchor_prefix_slice hbp (by omega), ?_, slice_length helen⟩
  have h1 : (t.take (ei + e.length)).drop s = (t.drop s).take (ei - s + e.length) := by
    rw [List.drop_take]
    congr 1
    omega
  rw [h1]
  apply anchor_suffix_slice
  rw [List.drop_drop]
  have h2 : s + (ei - s) = ei := by omega
  rw [h2]
  exact hep

/-- C1 witness: the concrete scenario from the specification.  The first
begin match starts at index 23, the end match spans indices 35–43, and
the returned span is `"START Hello world END"` of length `44 - 23`. -/
theorem extract_content_both_found_witness :
    extract_content
        ("Header menu Home About START Hello world END Footer copyright").data
        ("START Hello").data ("world END").data
      = some (("START Hello world END").data) ∧
    ("START Hello").data <+: ("START Hello world END").data ∧
    ("world END").data <:+ ("START Hello world END").data ∧
    (("START Hello world END").data).length
      = 35 + (("world END").data).length - 23 := by
  have h := extract_content_both_found
    ("Header menu Home About START Hello world END Footer copyright").data
    ("START Hello").data ("world END").data 23 35 (by decide) (by decide)
  exact ⟨h.1.trans (by decide), by decide, by decide, by decide⟩

/-- C2: `extract_content` returns absence exactly when the begin anchor
has no occurrence in the text (exact, case-sensitive substring search);
whenever the begin anchor does occur, the result is present. -/
theorem extract_content_none_iff_begin_absent (t b e : List Char) :
    extract_content t b e = none ↔ ¬ b <:+: t := by
  constructor
  · intro h hinf
    cases hb : strFind t b 0 with
    | none =>
      obtain ⟨j, hj, hpre⟩ := infix_iff_exists_drop.mp hinf
      exact strFind_eq_none hb j (Nat.zero_le j) hj hpre
    | some s =>
      cases he : strFind t e (s + b.length) with
      | none =>
        rw [extract_content_eq_of_unfound hb he] at h
        exact absurd h (by simp)
      | some ei =>
        rw [extract_content_eq_of_found hb he] at h
        exact absurd h (by simp)
  · intro hni
    cases hb : strFind t b 0 with
    | none => exact extract_content_eq_of_nobegin hb
    | some s =>
      obtain ⟨_, hsle, hbp, _⟩ := strFind_eq_some hb
      exact absurd (infix_iff_exists_drop.mpr ⟨s, hsle, hbp⟩) hni

/-- C3 counterexample: with an empty end anchor the claim predicts the
suffix `"C D E"`, but `extract_content` returns only the begin match
`"C"` — Python's `find("", i)` succeeds immediately at `i`, so the empty
anchor is never "not found". -/
theorem extract_content_empty_end_cex :
    extract_content ("A B C D E").data ("C").data [] = some (("C").data) ∧
    some (("C").data) ≠ some (("C D E").data) := by
  exact ⟨by decide, by decide⟩

/-- C3 (amended): when the begin anchor occurs (first match at `s`) and
the search for the end anchor from the position immediately following
that match misses — which for a reachable search origin can only happen
for a non-empty end anchor — the result is the suffix of the text from
the begin match's start.  An empty end anchor instead matches at the
search origin itself, so `extract_content t b ""` returns exactly the
begin match `b`, not the suffix. -/
theorem extract_content_end_unmatched :
    (∀ t b e : List Char, ∀ s : Nat, strFind t b 0 = some s →
        strFind t e (s + b.length) = none →
        extract_content t b e = some (t.drop s)) ∧
    (∀ t b : List Char, ∀ s : Nat, strFind t b 0 = some s →
        extract_content t b [] = some b) := by
  constructor
  · intro t b e s hb he
    exact extract_content_eq_of_unfound hb he
  · intro t b s hb
    obtain ⟨_, hsle, hbp, _⟩ := strFind_eq_some hb
    have hblen : s + b.length ≤ t.length := by
      have := hbp.length_le
      rw [List.length_drop] at this
      omega
    have hfe : strFind t ([] : List Char) (s + b.length) = some (s + b.length) := by
      unfold strFind
      rw [if_pos hblen]
      rcases hfuel : t.length + 1 - (s + b.length) with _ | n
      · omega
      · rw [strFindGo, if_pos (by simp [List.isPrefixOf])]
    rw [extract_content_eq_of_found hb hfe]
    simp only [List.length_nil, Nat.add_zero]
    rw [slice_is_anchor hbp]

/-- C3 witness: the concrete scenario — end anchor `"Z"` missing, result
is the suffix `"C D E"`; and the empty-anchor behaviour on the same text. -/
theorem extract_content_end_unmatched_witness :
    extract_content ("A B C D E").data ("C").data ("Z").data
      = some (("C D E").data) ∧
    extract_content ("A B C D E").data ("C").data [] = some (("C").data) := by
  have h1 := extract_content_end_unmatched.1 ("A B C D E").data ("C").data
    ("Z").data 4 (by decide) (by decide)
  have h2 := extract_content_end_unmatched.2 ("A B C D E").data ("C").data 4
    (by decide)
  exact ⟨h1.trans (by decide), h2⟩

/-- C5 counterexample: with both anchors empty the result is present but
empty, so a present result need not be a NON-empty substring. -/
theorem extract_content_empty_present_cex :
    extract_content ("abc").data [] [] = some [] := by decide

/-- C5 (amended): a present result of `extract_content` is a contiguous
substring (infix) of the text; it is non-empty whenever the begin anchor
is non-empty (it can be empty only for an empty begin anchor). -/
theorem extract_content_present_infix (t b e r : List Char)
    (h : extract_content t b e = some r) :
    r <:+: t ∧ (b ≠ [] → r ≠ []) := by
  cases hb : strFind t b 0 with
  | none =>
    rw [extract_content_eq_of_nobegin hb] at h
    exact absurd h (by simp)
  | some s =>
    obtain ⟨_, hsle, hbp, _⟩ := strFind_eq_some hb
    have hblen : s + b.length ≤ t.length := by
      have := hbp.length_le
      rw [List.length_drop] at this
      omega
    cases he : strFind t e (s + b.length) with
    | none =>
      rw [extract_content_eq_of_unfound hb he] at h
      obtain rfl := Option.some.inj h
      refine ⟨(List.drop_suffix s t).isInfix, fun hbne hre => hbne ?_⟩
      rw [hre] at hbp
      exact List.prefix_nil.mp hbp
    | some ei =>
      obtain ⟨heis, heile, hep, _⟩ := strFind_eq_some he
      have helen : ei + e.length ≤ t.length := by
        have := hep.length_le
        rw [List.length_drop] at this
        omega
      rw [extract_content_eq_of_found hb he] at h
      obtain rfl := Option.some.inj h
      refine ⟨((List.drop_suffix s (t.take (ei + e.length))).isInfix).trans
        ((List.take_prefix (ei + e.length) t).isInfix), fun hbne => ?_⟩
      have hbpos : 0 < b.length := List.length_pos.mpr hbne
      apply List.ne_nil_of_length_pos
      rw [slice_length helen]
      omega

/-- C5 witness: `extract("A B C", "B", "Z")` returns `"B C"`, which is a
contiguous non-empty substring of the text. -/
theorem extract_content_present_infix_witness :
    ("B C").data <:+: ("A B C").data ∧
    (("B").data ≠ ([] : List Char) → ("B C").data ≠ []) :=
  extract_content_present_infix ("A B C").data ("B").data ("Z").data
    (("B C").data) (by decide)

/-- C10: extraction is deterministic — two calls on identical arguments
return identical results. -/
theorem extract_content_deterministic (t₁ t₂ b₁ b₂ e₁ e₂ : List Char)
    (ht : t₁ = t₂) (hb : b₁ = b₂) (he : e₁ = e₂) :
    extract_content t₁ b₁ e₁ = extract_content t₂ b₂ e₂ := by
  rw [ht, hb, he]

/-- C10 witness: two identical concrete calls agree. -/
theorem extract_content_deterministic_witness :
    extract_content ("A B C").data ("B").data ("Z").data
      = extract_content ("A B C").data ("B").data ("Z").data :=
  extract_content_deterministic ("A B C").data ("A B C").data ("B").data
    ("B").data ("Z").data ("Z").data rfl rfl rfl

/-- Unfolding of `scrape` on the happy path: one fetch, one oracle query,
then the retry loop over the clamped budget with the fixed text/anchors. -/
theorem scrape_trace_eq {ε : Type}
    {fetch : List Char → Except ε (List Char)}
    {oracle : List Char → Except ε (List Char × List Char)}
    {url text b e : List Char}
    (hf : fetch url = .ok text) (ho : oracle text = .ok (b, e)) (r : Int) :
    scrape fetch oracle url r =
      (.ok (retryLoopN text b e none ((min 0 r) + 1).toNat).1,
       Ev.fetch url :: Ev.oracle text ::
         (retryLoopN text b e none ((min 0 r) + 1).toNat).2) := by
  simp only [scrape, hf, ho]

/-- One unit of loop budget performs exactly one extraction attempt. -/
theorem retryLoopN_one (text b e : List Char) :
    retryLoopN text b e none 1 = (extract_content text b e, [Ev.extract text b e]) := by
  simp [retryLoopN]

/-- The clamped budget is one unit for any requested `retries ≥ 0`. -/
theorem clamp_budget_nonneg {r : Int} (hr : 0 ≤ r) :
    ((min 0 r) + 1).toNat = 1 := by
  rw [min_eq_left hr]
  rfl

/-- The clamped budget is zero units for any requested `retries < 0`. -/
theorem clamp_budget_neg {r : Int} (hr : r < 0) :
    ((min 0 r) + 1).toNat = 0 := by
  rw [min_eq_right (by omega : r ≤ (0 : Int))]
  omega

/-- C4 evaluation at the failing input: the fetch succeeds with
`"A B C"`, the oracle's begin anchor `"Z"` is absent.  `scrape` with the
requested budget 0 still performs one extraction attempt (more than the
zero requested), with the default budget 3 it also performs exactly one
attempt (its docstring promises up to 3 retries), and the outcome is
absence — `min(0, retries)` should have been `max(0, retries)`. -/
theorem scrape_min_clamp_eval :
    countExtract (scrape demoFetch demoOracle demoUrl 0).2 = 1 ∧
    countExtract (scrape demoFetch demoOracle demoUrl 3).2 = 1 ∧
    (scrape demoFetch demoOracle demoUrl 3).1 = .ok none := by
  exact ⟨rfl, rfl, rfl⟩

/-- C6: because of the `min(0, retries)` clamp, any requested budget
`r ≥ 0` behaves exactly like `r = 0` — a single extraction attempt,
result independent of `r` — and any `r < 0` performs no extraction
attempt and yields absence. -/
theorem scrape_retries_inert {ε : Type}
    (fetch : List Char → Except ε (List Char))
    (oracle : List Char → Except ε (List Char × List Char))
    (url text b e : List Char) (r : Int)
    (hf : fetch url = .ok text) (ho : oracle text = .ok (b, e)) :
    (0 ≤ r → scrape fetch oracle url r = scrape fetch oracle url 0 ∧
      countExtract (scrape fetch oracle url r).2 = 1) ∧
    (r < 0 → countExtract (scrape fetch oracle url r).2 = 0 ∧
      (scrape fetch oracle url r).1 = .ok none) := by
  constructor
  · intro hr
    have h0 : scrape fetch oracle url r = scrape fetch oracle url 0 := by
      rw [scrape_trace_eq hf ho r, scrape_trace_eq hf ho 0,
        clamp_budget_nonneg hr, clamp_budget_nonneg (le_refl 0)]
    refine ⟨h0, ?_⟩
    rw [scrape_trace_eq hf ho r, clamp_budget_nonneg hr, retryLoopN_one]
    simp [countExtract, isExtractEv]
  · intro hr
    rw [scrape_trace_eq hf ho r, clamp_budget_neg hr]
    exact ⟨by simp [retryLoopN, countExtract, isExtractEv], rfl⟩

/-- C6 witness: with the demonstration collaborators and requested budget
7, `scrape` equals the budget-0 run and makes exactly one attempt. -/
theorem scrape_retries_inert_witness :
    ((0 : Int) ≤ 7 →
      scrape demoFetch demoOracle demoUrl 7 = scrape demoFetch demoOracle demoUrl 0 ∧
      countExtract (scrape demoFetch demoOracle demoUrl 7).2 = 1) ∧
    ((7 : Int) < 0 →
      countExtract (scrape demoFetch demoOracle demoUrl 7).2 = 0 ∧
      (scrape demoFetch demoOracle demoUrl 7).1 = .ok none) :=
  scrape_retries_inert demoFetch demoOracle demoUrl demoText (("Z").data)
    (("Q").data) 7 rfl rfl

/-- C7: in one `scrape` call the fetcher and the oracle are each invoked
exactly once, before any extraction attempt, and every extraction attempt
uses the one fetched text and the one anchor pair the oracle returned —
the trace is exactly fetch, oracle, then identical extraction events. -/
theorem scrape_single_fetch_oracle {ε : Type}
    (fetch : List Char → Except ε (List Char))
    (oracle : List Char → Except ε (List Char × List Char))
    (url text b e : List Char) (r : Int)
    (hf : fetch url = .ok text) (ho : oracle text = .ok (b, e)) :
    (scrape fetch oracle url r).2 =
      Ev.fetch url :: Ev.oracle text ::
        List.replicate (if 0 ≤ r then 1 else 0) (Ev.extract text b e) := by
  rw [scrape_trace_eq hf ho r]
  by_cases hr : (0 : Int) ≤ r
  · rw [if_pos hr, clamp_budget_nonneg hr, retryLoopN_one]
    simp
  · rw [if_neg hr, clamp_budget_neg (by omega : r < 0)]
    simp [retryLoopN]

/-- C7 witness: the concrete trace of a budget-3 run is exactly one fetch
event, one oracle event, then one extraction event on the fetched text
and the oracle's anchors. -/
theorem scrape_single_fetch_oracle_witness :
    (scrape demoFetch demoOracle demoUrl 3).2 =
      Ev.fetch demoUrl :: Ev.oracle demoText ::
        List.replicate (if (0 : Int) ≤ 3 then 1 else 0)
          (Ev.extract demoText (("Z").data) (("Q").data)) :=
  scrape_single_fetch_oracle demoFetch demoOracle demoUrl demoText
    (("Z").data) (("Q").data) 3 rfl rfl

/-- C8: when the fetch fails, `scrape` propagates the very same error,
the oracle is never queried, no extraction attempt happens, and the fetch
is not retried — the whole trace is the single fetch event. -/
theorem scrape_fetch_error_propagates {ε : Type}
    (fetch : List Char → Except ε (List Char))
    (oracle : List Char → Except ε (List Char × List Char))
    (url : List Char) (r : Int) (err : ε)
    (hf : fetch url = .error err) :
    scrape fetch oracle url r = (.error err, [Ev.fetch url]) := by
  simp only [scrape, hf]

/-- C8 witness: a fetcher raising `"connection refused"` makes `scrape`
return that error with a trace of exactly one fetch event. -/
theorem scrape_fetch_error_propagates_witness :
    scrape errFetch demoOracle demoUrl 3
      = (.error (("connection refused").data), [Ev.fetch demoUrl]) :=
  scrape_fetch_error_propagates errFetch demoOracle demoUrl 3
    (("connection refused").data) rfl

/-- C9 evaluation at the failing inputs: `main` does print the usage
message and return 1 when the URL argument is missing, print the failure
message naming the URL and return 2 on absence, and print the content
(returning `None`) on success — but the top level invokes `main()`
without `sys.exit`, so its return value is discarded and the process
exit code is 0 in every one of the three cases, not 1 or 2. -/
theorem main_return_codes_discarded :
    mainFn [progName] noneScrape
      = (some 1, [("Usage: ./aiscrape.py [url]").data]) ∧
    scriptExitCode [progName] noneScrape = 0 ∧
    mainFn [progName, demoUrl] noneScrape
      = (some 2, [("Failed to extract content url: http://example.com").data]) ∧
    scriptExitCode [progName, demoUrl] noneScrape = 0 ∧
    mainFn [progName, demoUrl] someScrape = (none, [("CONTENT").data]) ∧
    scriptExitCode [progName, demoUrl] someScrape = 0 := by
  exact ⟨by decide, rfl, by decide, rfl, by decide, rfl⟩
